import Mathlib

/-!
Shallow embedding of `src/ldm_seg/modules/encoders/modules.py` (LD-ZNet
conditioning encoders) and proofs of the specification claims.

Modelling conventions:
* Tensor data is rational-valued; tensors are nested lists, shape checks are
  boolean predicates so concrete instances evaluate by `decide` / `simp`.
* A raw input string is represented by the token sequence the external subword
  tokenizer produces for it (the spec treats the tokenizers' own algorithms as
  opaque external services), so tokenization proper is the identity on this
  representation, while the truncation / padding policy that the repository
  selects through tokenizer arguments is modelled explicitly.
* The gradient-relevant state of a wrapped torch module is the list of its
  parameters' requires_grad flags plus the training-mode flag.
* External pretrained networks (CLIP text tower, T5 encoder, the transformer
  stack, the diffusion model) are modelled by their shape contracts or carried
  as opaque function fields.
-/

namespace LDZNet

/-- A raw text, represented by the token sequence the external subword
tokenizer derives from it before any truncation or padding. -/
abbrev RawText := List Nat

abbrev Vec := List ℚ

abbrev Mat := List Vec

abbrev Tensor3 := List Mat

abbrev Tensor4 := List Tensor3

/-- Sum of a list of rationals. -/
def sumList (l : List ℚ) : ℚ := l.foldr (· + ·) 0

/-- Squared L2 norm of a vector. -/
def normSq (v : Vec) : ℚ := sumList (v.map (fun x => x * x))

/-- Boolean shape check for a rank-2 tensor. -/
def matHasShape (m : Mat) (r c : Nat) : Bool :=
  m.length == r && m.all (fun row => row.length == c)

/-- Boolean shape check for a rank-3 tensor. -/
def t3HasShape (t : Tensor3) (a b c : Nat) : Bool :=
  t.length == a && t.all (fun m => matHasShape m b c)

/-- Boolean shape check for a rank-4 tensor. -/
def t4HasShape (t : Tensor4) (a b c d : Nat) : Bool :=
  t.length == a && t.all (fun m => t3HasShape m b c d)

/-- Gradient-relevant state of a torch module: the requires_grad flag of each
parameter and the training-mode flag. -/
structure ModuleState where
  params : List Bool
  training : Bool
deriving DecidableEq

/-- Models loading a pretrained torch module (`from_pretrained`, `clip.load`,
checkpoint load): parameters come back requiring gradients and the module is in
training mode, which is the torch default. -/
def pretrainedLoad (n : Nat) : ModuleState :=
  { params := List.replicate n true, training := true }

/-- Shared body of the freeze methods in the source: `self.<module>.eval()`
followed by setting `requires_grad = False` on every parameter. -/
def freezeState (s : ModuleState) : ModuleState :=
  { params := s.params.map (fun _ => false), training := false }

theorem freezeState_idem (s : ModuleState) :
    freezeState (freezeState s) = freezeState s := by
  simp [freezeState]

theorem freezeState_params (s : ModuleState) :
    ∀ p ∈ (freezeState s).params, p = false := by
  intro p hp
  simp [freezeState] at hp
  exact hp.2

/-! ## BERTTokenizer -/

/-- Padding token id of the external bert-base-uncased vocabulary. -/
def bertPadTokenId : Nat := 0

/-- Models the external HuggingFace tokenizer called with `truncation=True`,
`max_length=maxLength`, `padding="max_length"`: every token sequence is
truncated to `maxLength` and then padded with the padding token id up to
`maxLength`. -/
def hfTokenizePad (padId maxLength : Nat) (texts : List RawText) :
    List (List Nat) :=
  texts.map (fun t => t.take maxLength ++ List.replicate (maxLength - t.length) padId)

/-- The BERTTokenizer wrapper class (device placement is out of scope). -/
structure BERTTokenizer where
  vq_interface : Bool
  max_length : Nat
deriving DecidableEq

/-- BERTTokenizer.forward: run the external tokenizer with truncation and
max_length padding and return the input_ids tensor. -/
def BERTTokenizer.forward (m : BERTTokenizer) (text : List RawText) :
    List (List Nat) :=
  hfTokenizePad bertPadTokenId m.max_length text

/-- One component of the python 3-tuple returned under the vq interface. -/
inductive VQEntry where
  | null : VQEntry
  | toks (t : List (List Nat)) : VQEntry
deriving DecidableEq

/-- Return value of BERTTokenizer.encode: either the token tensor directly, or
the python tuple `(None, None, [None, None, tokens])`. -/
inductive BERTEncodeResult where
  | direct (t : List (List Nat)) : BERTEncodeResult
  | vqTuple (quantized : VQEntry) (loss : VQEntry) (info : List VQEntry) :
      BERTEncodeResult
deriving DecidableEq

/-- BERTTokenizer.encode: tokens directly when vq_interface is false, else the
legacy `(None, None, [None, None, tokens])` tuple. -/
def BERTTokenizer.encode (m : BERTTokenizer) (text : List RawText) :
    BERTEncodeResult :=
  let tokens := m.forward text
  if !m.vq_interface then .direct tokens
  else .vqTuple .null .null [.null, .null, .toks tokens]

/-! ## BERTEmbedder -/

/-- Modelled from the spec: `ldm_seg.modules.x_transformer` (TransformerWrapper
with Encoder attention layers) is repository code not present under src/; per
spec section 4.1 it maps a (B, L) integer token tensor to per-position
embeddings of shape (B, L, n_embed). The embedding values themselves are
outside the claims; each token is mapped to a constant n_embed-vector. -/
def transformerWrapperRun (n_embed : Nat) (tokens : List (List Nat)) : Tensor3 :=
  tokens.map (fun row => row.map (fun (tok : Nat) => List.replicate n_embed ((tok : ℚ))))

/-- The BERTEmbedder class: optional internal BERTTokenizer (present exactly
when constructed with use_tokenizer) plus the transformer stack. -/
structure BERTEmbedder where
  n_embed : Nat
  max_seq_len : Nat
  use_tknz_fn : Bool
  tknz_fn : Option BERTTokenizer

/-- BERTEmbedder constructor: when use_tokenizer is set, builds the internal
BERTTokenizer with vq_interface false and max_length equal to max_seq_len. -/
def BERTEmbedder.init (n_embed max_seq_len : Nat) (use_tokenizer : Bool) :
    BERTEmbedder :=
  { n_embed := n_embed
    max_seq_len := max_seq_len
    use_tknz_fn := use_tokenizer
    tknz_fn :=
      if use_tokenizer then some { vq_interface := false, max_length := max_seq_len }
      else none }

/-- Input to BERTEmbedder.forward: raw strings, or an already tokenized
integer tensor when the tokenizer is bypassed. -/
inductive BERTInput where
  | strings (texts : List RawText) : BERTInput
  | tokens (t : List (List Nat)) : BERTInput

/-- BERTEmbedder.forward: tokenize when use_tknz_fn is set, then run the
transformer stack with return_embeddings. Mismatched input kind (a tensor
where strings are expected, or vice versa) is a python error, modelled as
none. -/
def BERTEmbedder.forward (m : BERTEmbedder) (input : BERTInput) :
    Option Tensor3 :=
  match m.use_tknz_fn, m.tknz_fn, input with
  | true, some tk, .strings texts =>
      some (transformerWrapperRun m.n_embed (tk.forward texts))
  | false, _, .tokens t => some (transformerWrapperRun m.n_embed t)
  | _, _, _ => none

/-- BERTEmbedder.encode simply delegates to forward. -/
def BERTEmbedder.encode (m : BERTEmbedder) (input : BERTInput) :
    Option Tensor3 :=
  m.forward input

/-! ## SpatialRescaler -/

/-- The interpolation methods accepted by the SpatialRescaler assertion. -/
def validMethods : List String :=
  ["nearest", "linear", "bilinear", "trilinear", "bicubic", "area"]

/-- A 1x1 conv layer: weight is out_channels rows of in_channels entries, bias
is present exactly when requested. -/
structure Conv2d1x1 where
  weight : List (List ℚ)
  bias : Option (List ℚ)
deriving DecidableEq

/-- The SpatialRescaler class after a successful construction. -/
structure SpatialRescaler where
  n_stages : Nat
  method : String
  multiplier : ℚ
  remap_output : Bool
  channel_mapper : Option Conv2d1x1
deriving DecidableEq

/-- SpatialRescaler constructor. The two asserts (n_stages nonnegative, method
among the supported interpolation modes) are modelled by returning none on
failure. The learned conv weights are supplied by initializer functions since
torch draws them randomly. -/
def SpatialRescaler.init (n_stages : Int) (method : String) (multiplier : ℚ)
    (in_channels : Nat) (out_channels : Option Nat) (bias : Bool)
    (weightInit : Nat → Nat → ℚ) (biasInit : Nat → ℚ) :
    Option SpatialRescaler :=
  if 0 ≤ n_stages ∧ method ∈ validMethods then
    some
      { n_stages := n_stages.toNat
        method := method
        multiplier := multiplier
        remap_output := out_channels.isSome
        channel_mapper := out_channels.map (fun oc =>
          { weight := (List.range oc).map (fun o =>
              (List.range in_channels).map (fun i => weightInit o i))
            bias := if bias then some ((List.range oc).map biasInit) else none }) }
  else none

/-- Output spatial size of one torch interpolate call with a scale factor:
floor of size times multiplier. -/
def scaledSize (multiplier : ℚ) (n : Nat) : Nat :=
  (⌊(n : ℚ) * multiplier⌋).toNat

/-- Resampling of one axis to n entries by index mapping. The interpolation
kernel (nearest, bilinear, ...) only changes the values, which are outside the
claims; the output length n is the contract. -/
def resizeAxis {α : Type} (n : Nat) (l : List α) (dflt : α) : List α :=
  (List.range n).map (fun i => l.getD (i * l.length / n) dflt)

/-- One torch interpolate pass on a single channel. -/
def interpolateChan (multiplier : ℚ) (ch : Mat) : Mat :=
  resizeAxis (scaledSize multiplier ch.length)
    (ch.map (fun row => resizeAxis (scaledSize multiplier row.length) row 0)) []

/-- One torch interpolate pass on a (B, C, H, W) tensor. -/
def interpolatePass (multiplier : ℚ) (x : Tensor4) : Tensor4 :=
  x.map (fun img => img.map (fun ch => interpolateChan multiplier ch))

/-- Value of one output pixel of the 1x1 convolution. -/
def conv1x1Pixel (w : List ℚ) (b : ℚ) (img : Tensor3) (i j : Nat) : ℚ :=
  b + sumList (List.zipWith (fun wc ch => wc * ((ch.getD i []).getD j 0)) w img)

/-- Apply a 1x1 convolution to one (C, H, W) image, remapping the channel
count to weight.length and keeping the spatial size. -/
def conv1x1Apply (c : Conv2d1x1) (img : Tensor3) : Tensor3 :=
  (List.range c.weight.length).map (fun o =>
    (List.range (img.headD []).length).map (fun i =>
      (List.range ((img.headD []).headD []).length).map (fun j =>
        conv1x1Pixel (c.weight.getD o [])
          (match c.bias with
           | some bl => bl.getD o 0
           | none => 0) img i j)))

/-- SpatialRescaler.forward: n_stages interpolation passes, then the optional
channel remapping convolution. -/
def SpatialRescaler.forward (m : SpatialRescaler) (x : Tensor4) : Tensor4 :=
  let y := (interpolatePass m.multiplier)^[m.n_stages] x
  if m.remap_output then
    match m.channel_mapper with
    | some cm => y.map (fun img => conv1x1Apply cm img)
    | none => y
  else y

/-- SpatialRescaler.encode delegates to forward. -/
def SpatialRescaler.encode (m : SpatialRescaler) (x : Tensor4) : Tensor4 :=
  m.forward x

/-! ## FrozenCLIPEmbedder -/

/-- The FrozenCLIPEmbedder class: HuggingFace CLIP tokenizer plus text
transformer, with max_length tokenization. outDim is the hidden size of the
pretrained transformer. -/
structure FrozenCLIPEmbedder where
  transformer : ModuleState
  max_length : Nat
  outDim : Nat

/-- FrozenCLIPEmbedder.freeze: transformer to eval mode, all parameters
requires_grad false. -/
def FrozenCLIPEmbedder.freeze (m : FrozenCLIPEmbedder) : FrozenCLIPEmbedder :=
  { m with transformer := freezeState m.transformer }

/-- FrozenCLIPEmbedder constructor: loads the pretrained transformer and then
calls freeze. -/
def FrozenCLIPEmbedder.init (nParams max_length outDim : Nat) :
    FrozenCLIPEmbedder :=
  FrozenCLIPEmbedder.freeze
    { transformer := pretrainedLoad nParams, max_length := max_length
      outDim := outDim }

/-- Modelled contract of the external CLIP text transformer: the last hidden
state has one outDim vector per input token position. -/
def clipTextModelRun (outDim : Nat) (tokens : List (List Nat)) : Tensor3 :=
  tokens.map (fun row => row.map (fun (tok : Nat) => List.replicate outDim ((tok : ℚ))))

/-- FrozenCLIPEmbedder.forward: tokenize with truncation and max_length
padding, then return the transformer's last hidden state. -/
def FrozenCLIPEmbedder.forward (m : FrozenCLIPEmbedder) (text : List RawText) :
    Tensor3 :=
  clipTextModelRun m.outDim (hfTokenizePad bertPadTokenId m.max_length text)

/-! ## FrozenT5Embedder -/

/-- A tensor together with the autograd tracking flag of the computation that
produced it. -/
structure TracedT3 where
  val : Tensor3
  requiresGrad : Bool

/-- Modelled contract of the external T5 encoder: the last hidden state has
one outDim vector per input token; the result participates in autograd exactly
when gradient mode is enabled and some parameter requires gradients. -/
def t5Run (outDim : Nat) (state : ModuleState) (tokens : List (List Nat))
    (gradEnabled : Bool) : TracedT3 :=
  { val := tokens.map (fun row => row.map (fun (tok : Nat) => List.replicate outDim ((tok : ℚ))))
    requiresGrad := gradEnabled && state.params.any id }

/-- The FrozenT5Embedder class. -/
structure FrozenT5Embedder where
  transformer : ModuleState
  max_length : Nat
  outDim : Nat

/-- FrozenT5Embedder.freeze: transformer to eval mode, all parameters
requires_grad false. -/
def FrozenT5Embedder.freeze (m : FrozenT5Embedder) : FrozenT5Embedder :=
  { m with transformer := freezeState m.transformer }

/-- FrozenT5Embedder constructor: loads the pretrained encoder and then calls
freeze. -/
def FrozenT5Embedder.init (nParams max_length outDim : Nat) : FrozenT5Embedder :=
  FrozenT5Embedder.freeze
    { transformer := pretrainedLoad nParams, max_length := max_length
      outDim := outDim }

/-- FrozenT5Embedder.forward: the whole body runs under torch.no_grad; the
tokenizer is called with no truncation, max_length or padding arguments, so
the token sequences pass through at their own lengths. -/
def FrozenT5Embedder.forward (m : FrozenT5Embedder) (text : List RawText) :
    TracedT3 :=
  let gradEnabled := false
  let tokens := text
  t5Run m.outDim m.transformer tokens gradEnabled

/-- FrozenT5Embedder.encode delegates to forward. -/
def FrozenT5Embedder.encode (m : FrozenT5Embedder) (text : List RawText) :
    TracedT3 :=
  m.forward text

/-! ## FrozenCLIPTextEmbedder -/

/-- The external clip package model as used here: its text tower maps a batch
of tokenized texts to one pooled embedding row per text, and sqrtO models the
floating-point square root used inside torch.linalg.norm. -/
structure CLIPModel where
  encode_text : List RawText → Mat
  sqrtO : ℚ → ℚ

/-- Models clip.tokenize: opaque external tokenization, identity on the token
sequence representation of a text. -/
def clipTokenize (text : List RawText) : List RawText := text

/-- The FrozenCLIPTextEmbedder class. -/
structure FrozenCLIPTextEmbedder where
  model : CLIPModel
  state : ModuleState
  max_length : Nat
  n_repeat : Nat
  normalize : Bool

/-- FrozenCLIPTextEmbedder constructor: loads the clip model; it does NOT call
freeze, so the loaded parameter state is kept as is. -/
def FrozenCLIPTextEmbedder.init (model : CLIPModel) (nParams : Nat)
    (max_length n_repeat : Nat) (normalize : Bool) : FrozenCLIPTextEmbedder :=
  { model := model
    state := pretrainedLoad nParams
    max_length := max_length
    n_repeat := n_repeat
    normalize := normalize }

/-- FrozenCLIPTextEmbedder.freeze: model to eval mode, all parameters
requires_grad false. -/
def FrozenCLIPTextEmbedder.freeze (m : FrozenCLIPTextEmbedder) :
    FrozenCLIPTextEmbedder :=
  { m with state := freezeState m.state }

/-- FrozenCLIPTextEmbedder.forward: encode_text, then optional division of
each row by its L2 norm (torch.linalg.norm over dim 1 with keepdim). -/
def FrozenCLIPTextEmbedder.forward (m : FrozenCLIPTextEmbedder)
    (text : List RawText) : Mat :=
  let z := m.model.encode_text (clipTokenize text)
  if m.normalize then
    z.map (fun row => row.map (fun x => x / m.model.sqrtO (normSq row)))
  else z

/-- FrozenCLIPTextEmbedder.encode: forward, insert a middle axis (z has 2
dims here, so the `z.ndim == 2` branch always fires), then repeat the middle
axis n_repeat times. -/
def FrozenCLIPTextEmbedder.encode (m : FrozenCLIPTextEmbedder)
    (text : List RawText) : Tensor3 :=
  let z := m.forward text
  z.map (fun row => List.replicate m.n_repeat row)

/-! ## FrozenClipImageEmbedder -/

/-- A torch buffer with its persistence flag as passed to register_buffer. -/
structure TorchBuffer where
  name : String
  value : Vec
  persistent : Bool
deriving DecidableEq

/-- Models the torch nn.Module persistence contract: the state dict keeps
exactly the buffers registered with persistent true. -/
def bufferStateDict (bufs : List TorchBuffer) : List (String × Vec) :=
  (bufs.filter (fun b => b.persistent)).map (fun b => (b.name, b.value))

/-- Attribute access for a registered buffer by name. -/
def bufferValue (bufs : List TorchBuffer) (n : String) : Vec :=
  ((bufs.find? (fun b => b.name == n)).map (fun b => b.value)).getD []

/-- The FrozenClipImageEmbedder class: the antialias flag and the two
normalization buffers registered in the constructor. -/
structure FrozenClipImageEmbedder where
  antialias : Bool
  buffers : List TorchBuffer
deriving DecidableEq

/-- The fixed CLIP channel means registered by the constructor. -/
def clipMeanList : Vec := [0.48145466, 0.4578275, 0.40821073]

/-- The fixed CLIP channel standard deviations registered by the
constructor. -/
def clipStdList : Vec := [0.26862954, 0.26130258, 0.27577711]

/-- Channel mean as indexed by kornia normalize. -/
def clipMeanC (c : Nat) : ℚ := clipMeanList.getD c 0

/-- Channel standard deviation as indexed by kornia normalize. -/
def clipStdC (c : Nat) : ℚ := clipStdList.getD c 0

/-- FrozenClipImageEmbedder constructor: registers mean and std as
non-persistent buffers with the fixed CLIP statistics. -/
def FrozenClipImageEmbedder.init (antialias : Bool) : FrozenClipImageEmbedder :=
  { antialias := antialias
    buffers :=
      [ { name := "mean", value := clipMeanList, persistent := false }
      , { name := "std", value := clipStdList, persistent := false } ] }

/-- Models kornia.geometry.resize to a fixed (outH, outW) spatial size. The
interpolation kernel selected by the string argument and the align_corners and
antialias flags only change the sampled values, which are outside the claims;
the data rule here is index subsampling and the contract is the output size. -/
def korniaResize (interpolation : String) (align_corners antialias : Bool)
    (outH outW : Nat) (x : Tensor4) : Tensor4 :=
  x.map (fun img => img.map (fun ch =>
    resizeAxis outH (ch.map (fun row => resizeAxis outW row 0)) []))

/-- Models kornia.enhance.normalize: per channel c, subtract mean c and divide
by std c. -/
def korniaNormalize (mean std : Vec) (x : Tensor4) : Tensor4 :=
  x.map (fun img =>
    List.zipWith (fun ms ch => ch.map (fun row => row.map (fun v => (v - ms.1) / ms.2)))
      (mean.zip std) img)

/-- FrozenClipImageEmbedder.preprocess: resize to 224x224 with bicubic
interpolation and align_corners, map the value range from [-1, 1] to [0, 1],
then normalize with the CLIP statistics buffers. -/
def FrozenClipImageEmbedder.preprocess (m : FrozenClipImageEmbedder)
    (x : Tensor4) : Tensor4 :=
  let x1 := korniaResize "bicubic" true m.antialias 224 224 x
  let x2 := x1.map (fun img => img.map (fun ch => ch.map (fun row =>
    row.map (fun v => (v + 1) / 2))))
  korniaNormalize (bufferValue m.buffers "mean") (bufferValue m.buffers "std") x2

/-! ## FrozenSDUNet -/

/-- The loaded latent diffusion model, as used by FrozenSDUNet: its parameter
state, the closed-form forward diffusion q_sample, and apply_model returning
the reconstruction together with the recorded intermediate features. -/
structure LatentDiffusionModel where
  state : ModuleState
  q_sample : Tensor4 → List Int → Tensor4 → Tensor4
  apply_model : Tensor4 → List Int → Tensor3 → Tensor4 × List Tensor4

/-- The FrozenSDUNet class. -/
structure FrozenSDUNet where
  timesteps : List Int
  model : LatentDiffusionModel

/-- FrozenSDUNet.freeze: model to eval mode, all parameters requires_grad
false. -/
def FrozenSDUNet.freeze (m : FrozenSDUNet) : FrozenSDUNet :=
  { m with model := { m.model with state := freezeState m.model.state } }

/-- Models torch.randint(low, high, (n,)): n draws from the integer range
[low, high); the random source is an abstract stream of naturals, mapped into
the range, which torch guarantees to sample uniformly. -/
def torchRandint (low high : Int) (n : Nat) (rng : Nat → Nat) : List Int :=
  (List.range n).map (fun i => low + ((rng i : Int)) % (high - low))

/-- The timestep vector FrozenSDUNet.forward builds: randint over
[timesteps[0], timesteps[-1]) when no timestep is given, else randint over
[timestep, timestep + 1). -/
def FrozenSDUNet.sampleT (m : FrozenSDUNet) (B : Nat) (timestep : Option Int)
    (rng : Nat → Nat) : List Int :=
  match timestep with
  | none => torchRandint (m.timesteps.headD 0) (m.timesteps.getLastD 0) B rng
  | some t => torchRandint t (t + 1) B rng

/-- FrozenSDUNet.forward: sample the timestep vector, forward-diffuse z with
the drawn noise via q_sample, run apply_model, and return the intermediate
features (the second component), not the reconstruction. The Gaussian noise,
like the randint stream, is an external random draw passed in. -/
def FrozenSDUNet.forward (m : FrozenSDUNet) (z : Tensor4) (c : Tensor3)
    (timestep : Option Int) (rng : Nat → Nat) (noise : Tensor4) :
    List Tensor4 :=
  let t := m.sampleT z.length timestep rng
  let z_noisy := m.model.q_sample z t noise
  (m.model.apply_model z_noisy t c).2

/-- FrozenSDUNet.encode delegates to forward. -/
def FrozenSDUNet.encode (m : FrozenSDUNet) (z : Tensor4) (c : Tensor3)
    (timestep : Option Int) (rng : Nat → Nat) (noise : Tensor4) :
    List Tensor4 :=
  m.forward z c timestep rng noise

/-! ## Auxiliary definitions used by theorems and concrete witnesses -/

/-- Per-stage spatial size after k torch interpolate passes. -/
def iterSize (mult : ℚ) (k H : Nat) : Nat := (scaledSize mult)^[k] H

/-- Channel (b, c) of a (B, C, H, W) tensor. -/
def chanAt (x : Tensor4) (b c : Nat) : Mat := (x.getD b []).getD c []

/-- All-zero (B, C, H, W) tensor, used as a concrete input. -/
def zeros4 (B C H W : Nat) : Tensor4 :=
  List.replicate B (List.replicate C (List.replicate H (List.replicate W 0)))

/-- Concrete clip model for witnesses: every text pools to the vector (3, 4),
and the square-root oracle knows the value needed at 25. -/
def cModelW : CLIPModel :=
  { encode_text := fun ts => ts.map (fun _ => [3, 4])
    sqrtO := fun q => if q = 25 then 5 else 0 }

/-- Concrete FrozenCLIPTextEmbedder for witnesses. -/
def clipTextW : FrozenCLIPTextEmbedder :=
  FrozenCLIPTextEmbedder.init cModelW 3 77 2 true

/-- Concrete FrozenCLIPEmbedder for witnesses. -/
def clipW : FrozenCLIPEmbedder := FrozenCLIPEmbedder.init 2 77 3

/-- Concrete latent diffusion model for witnesses: q_sample returns the latent
unchanged and apply_model records the latent as the only feature map. -/
def ldmW : LatentDiffusionModel :=
  { state := pretrainedLoad 1
    q_sample := fun z _ _ => z
    apply_model := fun z _ _ => (z, [z]) }

/-- Concrete FrozenSDUNet for witnesses, with timestep range [0, 10). -/
def sdunetW : FrozenSDUNet := { timesteps := [0, 10], model := ldmW }

/-- Concrete randint stream for witnesses. -/
def rngW : Nat → Nat := fun i => i + 3

/-- Concrete SpatialRescaler for witnesses: one bilinear halving stage, no
channel remapping. -/
def rescalerW : SpatialRescaler :=
  { n_stages := 1, method := "bilinear", multiplier := 1/2
    remap_output := false, channel_mapper := none }

/-- Concrete BERTTokenizer for witnesses. -/
def bertTokW : BERTTokenizer := { vq_interface := false, max_length := 3 }

/-! ## Helper lemmas -/

theorem getD_map_lt {α β : Type} (f : α → β) (l : List α) (n : Nat)
    (h : n < l.length) (d : β) (d2 : α) :
    (l.map f).getD n d = f (l.getD n d2) := by
  rw [List.getD_eq_getElem?_getD, List.getElem?_map, List.getElem?_eq_getElem h,
    List.getD_eq_getElem?_getD, List.getElem?_eq_getElem h]
  rfl

theorem getD_append_ge {α : Type} (l1 l2 : List α) (n : Nat)
    (h : l1.length ≤ n) (d : α) :
    (l1 ++ l2).getD n d = l2.getD (n - l1.length) d := by
  rw [List.getD_eq_getElem?_getD, List.getD_eq_getElem?_getD,
    List.getElem?_append_right h]

theorem getD_append_lt {α : Type} (l1 l2 : List α) (n : Nat)
    (h : n < l1.length) (d : α) :
    (l1 ++ l2).getD n d = l1.getD n d := by
  rw [List.getD_eq_getElem?_getD, List.getD_eq_getElem?_getD, List.getElem?_append]
  simp [h]

theorem getD_replicate_lt {α : Type} (n i : Nat) (h : i < n) (a d : α) :
    (List.replicate n a).getD i d = a := by
  rw [List.getD_eq_getElem?_getD, List.getElem?_replicate]
  simp [h]

theorem getD_take_lt {α : Type} (l : List α) (k i : Nat) (h : i < k) (d : α) :
    (l.take k).getD i d = l.getD i d := by
  rw [List.getD_eq_getElem?_getD, List.getD_eq_getElem?_getD, List.getElem?_take]
  simp [h]

theorem getD_mem {α : Type} (l : List α) (n : Nat) (h : n < l.length) (d : α) :
    l.getD n d ∈ l := by
  rw [List.getD_eq_getElem?_getD, List.getElem?_eq_getElem h]
  exact List.getElem_mem h

theorem hfTokenizePad_length (p L : Nat) (texts : List RawText) :
    (hfTokenizePad p L texts).length = texts.length := by
  simp [hfTokenizePad]

theorem hfTokenizePad_row_length (p L : Nat) (texts : List RawText) :
    ∀ r ∈ hfTokenizePad p L texts, r.length = L := by
  intro r hr
  simp [hfTokenizePad] at hr
  obtain ⟨t, _, rfl⟩ := hr
  simp
  omega

theorem transformerWrapperRun_shape (D L : Nat) (tokens : List (List Nat))
    (h : ∀ r ∈ tokens, r.length = L) :
    t3HasShape (transformerWrapperRun D tokens) tokens.length L D = true := by
  unfold t3HasShape transformerWrapperRun matHasShape
  rw [Bool.and_eq_true]
  refine ⟨by simp, ?_⟩
  rw [List.all_eq_true]
  intro m hm
  rw [List.mem_map] at hm
  obtain ⟨r, hr, rfl⟩ := hm
  rw [Bool.and_eq_true]
  refine ⟨by simp only [beq_iff_eq, List.length_map]; exact h r hr, ?_⟩
  rw [List.all_eq_true]
  intro row hrow
  rw [List.mem_map] at hrow
  obtain ⟨tok, _, rfl⟩ := hrow
  simp

/-! ## Claim theorems -/

/-- C5: freeze() is idempotent on every component that provides it: a second
call leaves every parameter with requires_grad false and the wrapped model in
evaluation mode, the same state as after one call. -/
theorem freeze_idempotent :
    (∀ m : FrozenCLIPEmbedder, m.freeze.freeze = m.freeze
      ∧ (∀ p ∈ m.freeze.transformer.params, p = false)
      ∧ m.freeze.transformer.training = false)
    ∧ (∀ m : FrozenT5Embedder, m.freeze.freeze = m.freeze
      ∧ (∀ p ∈ m.freeze.transformer.params, p = false)
      ∧ m.freeze.transformer.training = false)
    ∧ (∀ m : FrozenCLIPTextEmbedder, m.freeze.freeze = m.freeze
      ∧ (∀ p ∈ m.freeze.state.params, p = false)
      ∧ m.freeze.state.training = false)
    ∧ (∀ m : FrozenSDUNet, m.freeze.freeze = m.freeze
      ∧ (∀ p ∈ m.freeze.model.state.params, p = false)
      ∧ m.freeze.model.state.training = false) := by
  refine ⟨fun m => ⟨?_, ?_, rfl⟩, fun m => ⟨?_, ?_, rfl⟩,
    fun m => ⟨?_, ?_, rfl⟩, fun m => ⟨?_, ?_, rfl⟩⟩
  all_goals
    first
    | exact freezeState_params _
    | simp [FrozenCLIPEmbedder.freeze, FrozenT5Embedder.freeze,
        FrozenCLIPTextEmbedder.freeze, FrozenSDUNet.freeze, freezeState_idem]

/-- Witness for C5: the idempotence applied at a concrete frozen encoder,
discharging the parameter membership hypothesis there. -/
theorem freeze_idempotent_witness :
    clipW.freeze.freeze = clipW.freeze ∧ false = false :=
  ⟨(freeze_idempotent.1 clipW).1,
    (freeze_idempotent.1 clipW).2.1 false (by decide)⟩

/-- C6: the FrozenCLIPTextEmbedder constructor does not call freeze, so its
parameters keep the trainable state they are loaded with until freeze is
invoked explicitly, unlike FrozenCLIPEmbedder whose constructor freezes. -/
theorem clipTextEmbedder_init_not_frozen :
    (∀ (model : CLIPModel) (n ml k : Nat) (nm : Bool),
      (FrozenCLIPTextEmbedder.init model n ml k nm).state = pretrainedLoad n
      ∧ (∀ p ∈ (FrozenCLIPTextEmbedder.init model n ml k nm).state.params, p = true)
      ∧ (∀ p ∈ (FrozenCLIPTextEmbedder.init model n ml k nm).freeze.state.params,
          p = false))
    ∧ (∀ nP ml oD : Nat,
      (∀ p ∈ (FrozenCLIPEmbedder.init nP ml oD).transformer.params, p = false)
      ∧ (FrozenCLIPEmbedder.init nP ml oD).transformer.training = false) := by
  constructor
  · intro model n ml k nm
    refine ⟨rfl, ?_, freezeState_params _⟩
    intro p hp
    simp [FrozenCLIPTextEmbedder.init, pretrainedLoad] at hp
    exact hp.2
  · intro nP ml oD
    exact ⟨freezeState_params _, rfl⟩

/-- Witness for C6: at a concrete construction the loaded parameters are still
trainable, and freezing afterwards disables them. -/
theorem clipTextEmbedder_init_not_frozen_witness :
    clipTextW.state = pretrainedLoad 3 ∧ true = true ∧ false = false :=
  ⟨(clipTextEmbedder_init_not_frozen.1 cModelW 3 77 2 true).1,
    (clipTextEmbedder_init_not_frozen.1 cModelW 3 77 2 true).2.1 true (by decide),
    (clipTextEmbedder_init_not_frozen.1 cModelW 3 77 2 true).2.2 false (by decide)⟩

/-- C9: BERTTokenizer.encode returns the (B, max_length) token tensor directly
when vq_interface is false, and the (None, None, [None, None, tokens]) tuple
carrying the token tensor in the last info position when true; each row keeps
the (possibly truncated) token prefix and is filled with the padding token id
past the sequence's own token count. -/
theorem bertTokenizer_encode_contract (m : BERTTokenizer) (text : List RawText) :
    (m.forward text).length = text.length
    ∧ (∀ r ∈ m.forward text, r.length = m.max_length)
    ∧ (m.vq_interface = false → m.encode text = .direct (m.forward text))
    ∧ (m.vq_interface = true →
        m.encode text = .vqTuple .null .null [.null, .null, .toks (m.forward text)])
    ∧ (∀ k, k < text.length → ∀ i, i < m.max_length →
        ((text.getD k []).length ≤ i →
          ((m.forward text).getD k []).getD i 0 = bertPadTokenId)
        ∧ (i < (text.getD k []).length →
          ((m.forward text).getD k []).getD i 0 = (text.getD k []).getD i 0)) := by
  refine ⟨hfTokenizePad_length _ _ _, hfTokenizePad_row_length _ _ _, ?_, ?_, ?_⟩
  · intro hv
    simp [BERTTokenizer.encode, hv]
  · intro hv
    simp [BERTTokenizer.encode, hv]
  · intro k hk i hiL
    have hrow : (m.forward text).getD k [] =
        (text.getD k []).take m.max_length ++
          List.replicate (m.max_length - (text.getD k []).length) bertPadTokenId := by
      unfold BERTTokenizer.forward hfTokenizePad
      exact getD_map_lt _ text k hk [] []
    constructor
    · intro hlen
      rw [hrow, getD_append_ge]
      · rw [getD_replicate_lt]
        rw [List.length_take]
        omega
      · rw [List.length_take]
        omega
    · intro hlen
      rw [hrow, getD_append_lt]
      · exact getD_take_lt _ _ _ hiL 0
      · rw [List.length_take]
        omega

/-- Witness for C9: direct return and padding checked at a concrete tokenizer
and batch, discharging the flag and index hypotheses. -/
theorem bertTokenizer_encode_contract_witness :
    bertTokW.encode [[5, 6]] = .direct (bertTokW.forward [[5, 6]])
    ∧ ((bertTokW.forward [[5, 6]]).getD 0 []).getD 2 0 = bertPadTokenId :=
  ⟨(bertTokenizer_encode_contract bertTokW [[5, 6]]).2.2.1 rfl,
    ((bertTokenizer_encode_contract bertTokW [[5, 6]]).2.2.2.2 0 (by decide) 2
      (by decide)).1 (by decide)⟩

/-- C1: with use_tokenizer set, BERTEmbedder.encode succeeds on every string
batch and returns a (B, max_seq_len, n_embed) tensor: the internal tokenizer
truncates and pads every input to max_seq_len before the transformer runs. -/
theorem tokenizedTextEncoder_shape (n_embed max_seq_len : Nat)
    (texts : List RawText) :
    ∃ z, (BERTEmbedder.init n_embed max_seq_len true).encode (.strings texts)
        = some z
      ∧ t3HasShape z texts.length max_seq_len n_embed = true := by
  refine ⟨transformerWrapperRun n_embed
      (BERTTokenizer.forward { vq_interface := false, max_length := max_seq_len }
        texts), rfl, ?_⟩
  have h := hfTokenizePad_row_length bertPadTokenId max_seq_len texts
  have hlen := hfTokenizePad_length bertPadTokenId max_seq_len texts
  have hsh := transformerWrapperRun_shape n_embed max_seq_len
    (hfTokenizePad bertPadTokenId max_seq_len texts) h
  rw [hlen] at hsh
  exact hsh

/-- C8: FrozenT5Embedder tokenizes with no truncation or fixed-length padding,
so the hidden-state length tracks each input's own length and the stored
max_length is never applied; the forward pass runs in a no-grad scope (its
output never requires gradients, whatever the parameter state), on top of the
parameters being frozen by the constructor. -/
theorem t5_variable_length_no_grad (nP ml oD : Nat) (text : List RawText) :
    ((FrozenT5Embedder.init nP ml oD).forward text).requiresGrad = false
    ∧ ((FrozenT5Embedder.init nP ml oD).forward text).val.length = text.length
    ∧ (∀ k, k < text.length →
        (((FrozenT5Embedder.init nP ml oD).forward text).val.getD k []).length
          = (text.getD k []).length)
    ∧ (∀ (s : ModuleState) (ml2 oD2 : Nat),
        ((FrozenT5Embedder.forward
          { transformer := s, max_length := ml2, outDim := oD2 } text)).requiresGrad
          = false)
    ∧ (∀ p ∈ (FrozenT5Embedder.init nP ml oD).transformer.params, p = false)
    ∧ (FrozenT5Embedder.init nP ml oD).transformer.training = false := by
  refine ⟨?_, ?_, ?_, ?_, freezeState_params _, rfl⟩
  · simp [FrozenT5Embedder.forward, t5Run]
  · simp [FrozenT5Embedder.forward, t5Run]
  · intro k hk
    unfold FrozenT5Embedder.forward t5Run
    simp only
    rw [getD_map_lt _ text k hk [] []]
    simp
  · intro s ml2 oD2
    simp [FrozenT5Embedder.forward, t5Run]

/-- Witness for C8: a three-token input with a configured max_length of two
still yields three hidden-state positions, and the constructor-frozen
parameter state is checked at a member. -/
theorem t5_variable_length_no_grad_witness :
    (((FrozenT5Embedder.init 2 2 4).forward [[1, 2, 3]]).val.getD 0 []).length
      = (([[1, 2, 3]] : List RawText).getD 0 []).length
    ∧ false = false :=
  ⟨(t5_variable_length_no_grad 2 2 4 [[1, 2, 3]]).2.2.1 0 (by decide),
    (t5_variable_length_no_grad 2 2 4 [[1, 2, 3]]).2.2.2.2.1 false (by decide)⟩

theorem normSq_cons (a : ℚ) (l : Vec) : normSq (a :: l) = a * a + normSq l := rfl

theorem normSq_map_div (s : ℚ) (l : Vec) :
    normSq (l.map (fun x => x / s)) = normSq l / (s * s) := by
  induction l with
  | nil => simp [normSq, sumList]
  | cons a l ih =>
      rw [List.map_cons, normSq_cons, normSq_cons, ih, div_mul_div_comm,
        div_add_div_same]

/-- C3: FrozenCLIPTextEmbedder.encode replicates the pooled (B, D) embedding
n_repeat times along a new middle axis, giving shape (B, n_repeat, D)
whatever the normalize flag is; when normalize is set, every pooled row has
unit L2 norm (stated via the squared norm). The hypotheses are the external
contracts: the clip text tower returns one D-vector per input, and (for the
norm part only) the square-root oracle is exact and nonzero on the row
norms. -/
theorem clipTextEmbedder_encode_shape_norm (m : FrozenCLIPTextEmbedder)
    (text : List RawText) (D : Nat)
    (hB : (m.model.encode_text (clipTokenize text)).length = text.length)
    (hD : ∀ row ∈ m.model.encode_text (clipTokenize text), row.length = D) :
    t3HasShape (m.encode text) text.length m.n_repeat D = true
    ∧ (m.normalize = true →
        (∀ row ∈ m.model.encode_text (clipTokenize text),
            m.model.sqrtO (normSq row) * m.model.sqrtO (normSq row) = normSq row
            ∧ m.model.sqrtO (normSq row) ≠ 0) →
        ∀ row ∈ m.forward text, normSq row = 1) := by
  have hlen : (m.forward text).length = text.length := by
    unfold FrozenCLIPTextEmbedder.forward
    by_cases hn : m.normalize = true
    · simp [hn, hB]
    · simp [hn, hB]
  have hrows : ∀ row ∈ m.forward text, row.length = D := by
    intro row hrow
    unfold FrozenCLIPTextEmbedder.forward at hrow
    by_cases hn : m.normalize = true
    · simp only [hn, if_true] at hrow
      rw [List.mem_map] at hrow
      obtain ⟨r0, hr0, rfl⟩ := hrow
      rw [List.length_map]
      exact hD r0 hr0
    · simp only [hn, if_false, Bool.false_eq_true] at hrow
      exact hD row hrow
  constructor
  · unfold FrozenCLIPTextEmbedder.encode t3HasShape
    rw [Bool.and_eq_true]
    refine ⟨by simp only [List.length_map, beq_iff_eq]; exact hlen, ?_⟩
    rw [List.all_eq_true]
    intro mm hmm
    simp only [List.mem_map] at hmm
    obtain ⟨row, hrow, rfl⟩ := hmm
    unfold matHasShape
    rw [Bool.and_eq_true]
    refine ⟨by simp, ?_⟩
    rw [List.all_eq_true]
    intro r hr
    have hr2 := List.eq_of_mem_replicate hr
    subst hr2
    rw [beq_iff_eq]
    exact hrows _ hrow
  · intro hnorm hs
    have hfwd : m.forward text =
        (m.model.encode_text (clipTokenize text)).map
          (fun row => row.map (fun x => x / m.model.sqrtO (normSq row))) := by
      unfold FrozenCLIPTextEmbedder.forward
      simp [hnorm]
    intro row hrow
    rw [hfwd] at hrow
    rw [List.mem_map] at hrow
    obtain ⟨r0, hr0, rfl⟩ := hrow
    rw [normSq_map_div, (hs r0 hr0).1, div_self]
    rw [← (hs r0 hr0).1]
    exact mul_ne_zero (hs r0 hr0).2 (hs r0 hr0).2

theorem clipTextW_sqrt_contract :
    ∀ row ∈ clipTextW.model.encode_text (clipTokenize [[7]]),
      clipTextW.model.sqrtO (normSq row) * clipTextW.model.sqrtO (normSq row)
        = normSq row
      ∧ clipTextW.model.sqrtO (normSq row) ≠ 0 := by
  intro row hrow
  simp only [clipTextW, FrozenCLIPTextEmbedder.init, cModelW, clipTokenize,
    List.map_cons, List.map_nil, List.mem_singleton] at hrow ⊢
  subst hrow
  norm_num [normSq, sumList]

theorem clipTextW_mem_forward :
    ([3/5, 4/5] : Vec) ∈ clipTextW.forward [[7]] := by
  norm_num [FrozenCLIPTextEmbedder.forward, clipTextW,
    FrozenCLIPTextEmbedder.init, cModelW, clipTokenize, normSq, sumList]

/-- Witness for C3: concrete clip model pooling every text to (3, 4); the
encoded batch has shape (1, 2, 2) and the normalized row (3/5, 4/5) has unit
squared norm. -/
theorem clipTextEmbedder_encode_shape_norm_witness :
    t3HasShape (clipTextW.encode [[7]]) 1 2 2 = true
    ∧ normSq [3/5, 4/5] = 1 :=
  ⟨(clipTextEmbedder_encode_shape_norm clipTextW [[7]] 2 (by decide)
      (by decide)).1,
    (clipTextEmbedder_encode_shape_norm clipTextW [[7]] 2 (by decide)
      (by decide)).2 rfl clipTextW_sqrt_contract [3/5, 4/5]
      clipTextW_mem_forward⟩

/-- C2: FrozenSDUNet.forward with an explicit timestep noises every batch
element at exactly that step; with none, each drawn step lies in the range
from timesteps[0] inclusive to timesteps[-1] exclusive; the returned value is
the list of intermediate features from apply_model, not the reconstruction. -/
theorem sdunet_timestep_selection (m : FrozenSDUNet) (z : Tensor4) (c : Tensor3)
    (t : Int) (rng : Nat → Nat) (noise : Tensor4) :
    m.sampleT z.length (some t) rng = List.replicate z.length t
    ∧ m.forward z c (some t) rng noise =
        (m.model.apply_model
          (m.model.q_sample z (List.replicate z.length t) noise)
          (List.replicate z.length t) c).2
    ∧ (m.timesteps.headD 0 < m.timesteps.getLastD 0 →
        ∀ s ∈ m.sampleT z.length none rng,
          m.timesteps.headD 0 ≤ s ∧ s < m.timesteps.getLastD 0) := by
  have hsome : m.sampleT z.length (some t) rng = List.replicate z.length t := by
    unfold FrozenSDUNet.sampleT torchRandint
    simp [Int.emod_one, add_sub_cancel_left, List.map_const']
  refine ⟨hsome, ?_, ?_⟩
  · unfold FrozenSDUNet.forward
    rw [hsome]
  · intro hlt s hs
    unfold FrozenSDUNet.sampleT torchRandint at hs
    simp only [List.mem_map, List.mem_range] at hs
    obtain ⟨i, _, rfl⟩ := hs
    constructor
    · have := Int.emod_nonneg ((rng i : Nat) : Int)
        (by omega : m.timesteps.getLastD 0 - m.timesteps.headD 0 ≠ 0)
      omega
    · have := Int.emod_lt_of_pos ((rng i : Nat) : Int)
        (by omega : (0 : Int) < m.timesteps.getLastD 0 - m.timesteps.headD 0)
      omega

/-- Witness for C2: with the concrete range [0, 10) the drawn step 3 lies in
range, and an explicit timestep of 7 gives the constant step vector. -/
theorem sdunet_timestep_selection_witness :
    ((0 : Int) ≤ 3 ∧ (3 : Int) < 10)
    ∧ sdunetW.sampleT (zeros4 1 1 1 1).length (some 7) rngW
        = List.replicate (zeros4 1 1 1 1).length 7 :=
  ⟨(sdunet_timestep_selection sdunetW (zeros4 1 1 1 1) [] 7 rngW []).2.2
      (by decide) 3 (by decide),
    (sdunet_timestep_selection sdunetW (zeros4 1 1 1 1) [] 7 rngW []).1⟩

/-- C10: the SpatialRescaler constructor succeeds exactly when n_stages is
nonnegative and the method is one of the six supported interpolation modes;
every constructed instance therefore carries a valid method (and the requested
stage count). -/
theorem spatialRescaler_init_assertions (n_stages : Int) (method : String)
    (mult : ℚ) (ic : Nat) (oc : Option Nat) (bias : Bool)
    (wI : Nat → Nat → ℚ) (bI : Nat → ℚ) :
    ((SpatialRescaler.init n_stages method mult ic oc bias wI bI).isSome = true
      ↔ (0 ≤ n_stages ∧ method ∈ validMethods))
    ∧ (∀ m, SpatialRescaler.init n_stages method mult ic oc bias wI bI = some m →
        m.method ∈ validMethods ∧ (m.n_stages : Int) = n_stages) := by
  unfold SpatialRescaler.init
  by_cases h : 0 ≤ n_stages ∧ method ∈ validMethods
  · rw [if_pos h]
    refine ⟨by simp [h], ?_⟩
    intro m hm
    injection hm with h2
    subst h2
    exact ⟨h.2, by simp [Int.toNat_of_nonneg h.1]⟩
  · rw [if_neg h]
    refine ⟨by simp [h], ?_⟩
    intro m hm
    simp at hm

/-- Witness for C10: a successfully constructed rescaler, with the assertion
hypotheses discharged concretely. -/
theorem spatialRescaler_init_assertions_witness :
    rescalerW.method ∈ validMethods ∧ ((rescalerW.n_stages : Int) = 1) :=
  (spatialRescaler_init_assertions 1 "bilinear" (1/2) 1 none false
      (fun _ _ => 0) (fun _ => 0)).2 rescalerW rfl

theorem matHasShape_iff (m : Mat) (r c : Nat) :
    matHasShape m r c = true ↔ (m.length = r ∧ ∀ row ∈ m, row.length = c) := by
  simp [matHasShape, List.all_eq_true]

theorem t3HasShape_iff (t : Tensor3) (a b c : Nat) :
    t3HasShape t a b c = true
      ↔ (t.length = a ∧ ∀ m ∈ t, matHasShape m b c = true) := by
  simp [t3HasShape, List.all_eq_true]

theorem t4HasShape_iff (t : Tensor4) (a b c d : Nat) :
    t4HasShape t a b c d = true
      ↔ (t.length = a ∧ ∀ m ∈ t, t3HasShape m b c d = true) := by
  simp [t4HasShape, List.all_eq_true]

theorem resizeAxis_length {α : Type} (n : Nat) (l : List α) (d : α) :
    (resizeAxis n l d).length = n := by
  simp [resizeAxis]

theorem mem_resizeAxis {α : Type} {a : α} {n : Nat} {l : List α} {d : α}
    (ha : a ∈ resizeAxis n l d) (hl : 0 < l.length) : a ∈ l := by
  simp only [resizeAxis, List.mem_map, List.mem_range] at ha
  obtain ⟨i, hi, rfl⟩ := ha
  have hn : 0 < n := lt_of_le_of_lt (Nat.zero_le i) hi
  have hidx : i * l.length / n < l.length := by
    rw [Nat.div_lt_iff_lt_mul hn]
    exact lt_of_lt_of_le ((Nat.mul_lt_mul_right hl).mpr hi)
      (le_of_eq (Nat.mul_comm n l.length))
  exact getD_mem l _ hidx d

theorem resizeRows_shape (oh ow : Nat) (l : List Vec)
    (hlen : ∀ row ∈ l, row.length = ow)
    (h0 : l.length = 0 → oh = 0) :
    matHasShape (resizeAxis oh l []) oh ow = true := by
  rw [matHasShape_iff]
  refine ⟨resizeAxis_length _ _ _, ?_⟩
  intro row hrow
  rcases Nat.eq_zero_or_pos l.length with h | h
  · rw [h0 h] at hrow
    simp [resizeAxis] at hrow
  · exact hlen row (mem_resizeAxis hrow h)

theorem scaledSize_zero (mult : ℚ) : scaledSize mult 0 = 0 := by
  simp [scaledSize]

theorem interpolateChan_shape (mult : ℚ) (ch : Mat) (H W : Nat)
    (hch : matHasShape ch H W = true) :
    matHasShape (interpolateChan mult ch) (scaledSize mult H) (scaledSize mult W)
      = true := by
  rw [matHasShape_iff] at hch
  obtain ⟨hlen, hrows⟩ := hch
  unfold interpolateChan
  rw [hlen]
  apply resizeRows_shape
  · intro row hrow
    rw [List.mem_map] at hrow
    obtain ⟨r, hr, rfl⟩ := hrow
    rw [resizeAxis_length, hrows r hr]
  · intro h
    rw [List.length_map, hlen] at h
    rw [h, scaledSize_zero]

theorem interpolatePass_shape (mult : ℚ) (x : Tensor4) (B C H W : Nat)
    (hx : t4HasShape x B C H W = true) :
    t4HasShape (interpolatePass mult x) B C (scaledSize mult H)
      (scaledSize mult W) = true := by
  rw [t4HasShape_iff] at hx ⊢
  obtain ⟨hlen, himgs⟩ := hx
  unfold interpolatePass
  refine ⟨by rw [List.length_map, hlen], ?_⟩
  intro img himg
  rw [List.mem_map] at himg
  obtain ⟨img0, himg0, rfl⟩ := himg
  have h3 := (t3HasShape_iff _ _ _ _).mp (himgs img0 himg0)
  rw [t3HasShape_iff]
  refine ⟨by rw [List.length_map, h3.1], ?_⟩
  intro ch hch
  rw [List.mem_map] at hch
  obtain ⟨ch0, hch0, rfl⟩ := hch
  exact interpolateChan_shape mult ch0 H W (h3.2 ch0 hch0)

theorem iterate_interpolatePass_shape (mult : ℚ) (k : Nat) (x : Tensor4)
    (B C H W : Nat) (hx : t4HasShape x B C H W = true) :
    t4HasShape ((interpolatePass mult)^[k] x) B C (iterSize mult k H)
      (iterSize mult k W) = true := by
  induction k generalizing x H W with
  | zero => simpa [iterSize]
  | succ k ih =>
      unfold iterSize
      rw [Function.iterate_succ_apply, Function.iterate_succ_apply,
        Function.iterate_succ_apply]
      exact ih (interpolatePass mult x) (scaledSize mult H) (scaledSize mult W)
        (interpolatePass_shape mult x B C H W hx)

theorem conv1x1Apply_shape (c : Conv2d1x1) (img : Tensor3) (C H W : Nat)
    (himg : t3HasShape img C H W = true) (hC : 0 < C) :
    t3HasShape (conv1x1Apply c img) c.weight.length H W = true := by
  rw [t3HasShape_iff] at himg
  obtain ⟨hlen, hchans⟩ := himg
  have hhead : img.headD [] ∈ img := by
    cases img with
    | nil => simp at hlen; omega
    | cons a l => simp
  have hch := (matHasShape_iff _ _ _).mp (hchans _ hhead)
  unfold conv1x1Apply
  rw [hch.1]
  rw [t3HasShape_iff]
  refine ⟨by simp, ?_⟩
  intro mm hmm
  rw [List.mem_map] at hmm
  obtain ⟨o, _, rfl⟩ := hmm
  rw [matHasShape_iff]
  refine ⟨by simp, ?_⟩
  intro row hrow
  rw [List.mem_map] at hrow
  obtain ⟨i, hi, rfl⟩ := hrow
  rw [List.mem_range] at hi
  rw [List.length_map, List.length_range]
  have hpos : 0 < (img.headD []).length := by rw [hch.1]; omega
  cases hhd : img.headD [] with
  | nil => rw [hhd] at hpos; simp at hpos
  | cons a l =>
      simp only [List.headD_cons]
      exact hch.2 a (by rw [hhd]; exact List.mem_cons_self a l)

theorem spatialRescaler_forward_some (m : SpatialRescaler) (cm : Conv2d1x1)
    (hrm : m.remap_output = true) (hcm : m.channel_mapper = some cm)
    (x : Tensor4) :
    m.forward x = ((interpolatePass m.multiplier)^[m.n_stages] x).map
      (fun img => conv1x1Apply cm img) := by
  unfold SpatialRescaler.forward
  rw [hrm, hcm]
  simp

theorem spatialRescaler_forward_none (m : SpatialRescaler)
    (hrm : m.remap_output = false) (x : Tensor4) :
    m.forward x = (interpolatePass m.multiplier)^[m.n_stages] x := by
  unfold SpatialRescaler.forward
  rw [hrm]
  simp

theorem scaledSize_half (n : Nat) : scaledSize (1/2) n = n / 2 := by
  unfold scaledSize
  rw [mul_one_div]
  rw [show ((n : ℚ) / 2) = ((n : ℤ) : ℚ) / ((2 : ℕ) : ℚ) by push_cast; ring]
  rw [Rat.floor_intCast_div_natCast]
  omega

theorem iterSize_half (k H : Nat) : iterSize (1/2) k H = H / 2 ^ k := by
  induction k generalizing H with
  | zero => simp [iterSize]
  | succ k ih =>
      unfold iterSize at ih ⊢
      rw [Function.iterate_succ_apply, scaledSize_half, ih,
        Nat.div_div_eq_div_mul, pow_succ, Nat.mul_comm 2 (2 ^ k)]

/-- C4: SpatialRescaler.forward applies exactly n_stages interpolation passes,
each scaling the spatial size by the multiplier (floor per pass), so with
multiplier one half the output spatial size is the input size divided by
2 to the n_stages; n_stages zero with no remapping is the identity; the 1x1
channel-remapping convolution runs exactly when out_channels was configured,
and then the channel count becomes out_channels. -/
theorem spatialRescaler_forward_shape (n_stages : Int) (method : String)
    (mult : ℚ) (ic : Nat) (oc : Option Nat) (bias : Bool)
    (wI : Nat → Nat → ℚ) (bI : Nat → ℚ) (m : SpatialRescaler)
    (hinit : SpatialRescaler.init n_stages method mult ic oc bias wI bI = some m)
    (x : Tensor4) (B C H W : Nat)
    (hx : t4HasShape x B C H W = true) (hC : 0 < C) :
    t4HasShape (m.forward x) B (oc.getD C)
        (iterSize mult m.n_stages H) (iterSize mult m.n_stages W) = true
    ∧ m.remap_output = oc.isSome
    ∧ (m.n_stages = 0 ∧ m.remap_output = false → m.forward x = x)
    ∧ (mult = 1/2 →
        t4HasShape (m.forward x) B (oc.getD C)
          (H / 2 ^ m.n_stages) (W / 2 ^ m.n_stages) = true) := by
  unfold SpatialRescaler.init at hinit
  by_cases h : 0 ≤ n_stages ∧ method ∈ validMethods
  swap
  · rw [if_neg h] at hinit
    simp at hinit
  rw [if_pos h] at hinit
  injection hinit with h2
  subst h2
  have hiter := iterate_interpolatePass_shape mult (n_stages.toNat) x B C H W hx
  have hshape : t4HasShape
      (SpatialRescaler.forward
        { n_stages := n_stages.toNat, method := method, multiplier := mult
          remap_output := oc.isSome
          channel_mapper := oc.map (fun oc2 =>
            { weight := (List.range oc2).map (fun o =>
                (List.range ic).map (fun i => wI o i))
              bias := if bias then some ((List.range oc2).map bI) else none }) } x)
      B (oc.getD C) (iterSize mult n_stages.toNat H)
      (iterSize mult n_stages.toNat W) = true := by
    cases oc with
    | none =>
        rw [spatialRescaler_forward_none _ rfl]
        simpa using hiter
    | some oc2 =>
        rw [spatialRescaler_forward_some _ _ rfl rfl]
        rw [t4HasShape_iff]
        rw [t4HasShape_iff] at hiter
        refine ⟨by rw [List.length_map]; exact hiter.1, ?_⟩
        intro img himg
        rw [List.mem_map] at himg
        obtain ⟨img0, himg0, rfl⟩ := himg
        have := conv1x1Apply_shape
          { weight := (List.range oc2).map (fun o =>
              (List.range ic).map (fun i => wI o i))
            bias := if bias then some ((List.range oc2).map bI) else none }
          img0 C (iterSize mult n_stages.toNat H) (iterSize mult n_stages.toNat W)
          (hiter.2 img0 himg0) hC
        simpa using this
  refine ⟨hshape, rfl, ?_, ?_⟩
  · rintro ⟨h0, hrm⟩
    simp only at h0 hrm
    unfold SpatialRescaler.forward
    simp [h0, hrm]
  · intro hm
    subst hm
    rw [iterSize_half, iterSize_half] at hshape
    exact hshape

/-- Witness for C4: one halving stage on a (1, 1, 4, 4) tensor gives spatial
size (2, 2), both via the iterated-size formula and the closed form. -/
theorem spatialRescaler_forward_shape_witness :
    t4HasShape (rescalerW.forward (zeros4 1 1 4 4)) 1 ((none : Option Nat).getD 1)
        (iterSize (1/2) rescalerW.n_stages 4) (iterSize (1/2) rescalerW.n_stages 4)
        = true
    ∧ t4HasShape (rescalerW.forward (zeros4 1 1 4 4)) 1 ((none : Option Nat).getD 1)
        (4 / 2 ^ rescalerW.n_stages) (4 / 2 ^ rescalerW.n_stages) = true :=
  ⟨(spatialRescaler_forward_shape 1 "bilinear" (1/2) 1 none false
      (fun _ _ => 0) (fun _ => 0) rescalerW rfl (zeros4 1 1 4 4) 1 1 4 4
      (by decide) (by decide)).1,
    (spatialRescaler_forward_shape 1 "bilinear" (1/2) 1 none false
      (fun _ _ => 0) (fun _ => 0) rescalerW rfl (zeros4 1 1 4 4) 1 1 4 4
      (by decide) (by decide)).2.2.2 rfl⟩

theorem mem_zipWith {α β γ : Type} {f : α → β → γ} {l1 : List α} {l2 : List β}
    {c : γ} (h : c ∈ List.zipWith f l1 l2) :
    ∃ a b, a ∈ l1 ∧ b ∈ l2 ∧ c = f a b := by
  induction l1 generalizing l2 with
  | nil => simp at h
  | cons x xs ih =>
      cases l2 with
      | nil => simp at h
      | cons y ys =>
          rw [List.zipWith_cons_cons] at h
          rcases List.mem_cons.mp h with h | h
          · exact ⟨x, y, List.mem_cons_self x xs, List.mem_cons_self y ys, h⟩
          · obtain ⟨a, b, ha, hb, rfl⟩ := ih h
            exact ⟨a, b, List.mem_cons_of_mem _ ha, List.mem_cons_of_mem _ hb, rfl⟩

theorem korniaResize_shape (s : String) (ac aa : Bool) (oh ow : Nat)
    (x : Tensor4) (B C H W : Nat) (hx : t4HasShape x B C H W = true)
    (hH : 0 < H) :
    t4HasShape (korniaResize s ac aa oh ow x) B C oh ow = true := by
  rw [t4HasShape_iff] at hx ⊢
  obtain ⟨hlen, himgs⟩ := hx
  unfold korniaResize
  refine ⟨by rw [List.length_map, hlen], ?_⟩
  intro img himg
  rw [List.mem_map] at himg
  obtain ⟨img0, himg0, rfl⟩ := himg
  have h3 := (t3HasShape_iff _ _ _ _).mp (himgs _ himg0)
  rw [t3HasShape_iff]
  refine ⟨by rw [List.length_map, h3.1], ?_⟩
  intro ch hch
  rw [List.mem_map] at hch
  obtain ⟨ch0, hch0, rfl⟩ := hch
  have hm := (matHasShape_iff _ _ _).mp (h3.2 _ hch0)
  apply resizeRows_shape
  · intro row hrow
    rw [List.mem_map] at hrow
    obtain ⟨r, _, rfl⟩ := hrow
    exact resizeAxis_length _ _ _
  · intro h
    rw [List.length_map, hm.1] at h
    omega

theorem mapVals4_shape (f : ℚ → ℚ) (x : Tensor4) (B C H W : Nat)
    (hx : t4HasShape x B C H W = true) :
    t4HasShape
      (x.map (fun img => img.map (fun ch => ch.map (fun row => row.map f))))
      B C H W = true := by
  rw [t4HasShape_iff] at hx ⊢
  obtain ⟨hlen, himgs⟩ := hx
  refine ⟨by rw [List.length_map, hlen], ?_⟩
  intro img himg
  rw [List.mem_map] at himg
  obtain ⟨img0, himg0, rfl⟩ := himg
  have h3 := (t3HasShape_iff _ _ _ _).mp (himgs _ himg0)
  rw [t3HasShape_iff]
  refine ⟨by rw [List.length_map, h3.1], ?_⟩
  intro ch hch
  rw [List.mem_map] at hch
  obtain ⟨ch0, hch0, rfl⟩ := hch
  have hm := (matHasShape_iff _ _ _).mp (h3.2 _ hch0)
  rw [matHasShape_iff]
  refine ⟨by rw [List.length_map, hm.1], ?_⟩
  intro row hrow
  rw [List.mem_map] at hrow
  obtain ⟨r, hr, rfl⟩ := hrow
  rw [List.length_map]
  exact hm.2 r hr

theorem korniaNormalize_shape (mean std : Vec) (x : Tensor4) (B H W : Nat)
    (hm : mean.length = 3) (hsd : std.length = 3)
    (hx : t4HasShape x B 3 H W = true) :
    t4HasShape (korniaNormalize mean std x) B 3 H W = true := by
  rw [t4HasShape_iff] at hx ⊢
  obtain ⟨hlen, himgs⟩ := hx
  unfold korniaNormalize
  refine ⟨by rw [List.length_map, hlen], ?_⟩
  intro img himg
  rw [List.mem_map] at himg
  obtain ⟨img0, himg0, rfl⟩ := himg
  have h3 := (t3HasShape_iff _ _ _ _).mp (himgs _ himg0)
  rw [t3HasShape_iff]
  constructor
  · rw [List.length_zipWith, List.length_zip, hm, hsd, h3.1]
    simp
  · intro ch hch
    obtain ⟨ms, ch0, _, hch0, rfl⟩ := mem_zipWith hch
    have hm0 := (matHasShape_iff _ _ _).mp (h3.2 _ hch0)
    rw [matHasShape_iff]
    refine ⟨by rw [List.length_map, hm0.1], ?_⟩
    intro row hrow
    rw [List.mem_map] at hrow
    obtain ⟨r, hr, rfl⟩ := hrow
    rw [List.length_map]
    exact hm0.2 r hr

theorem preprocess_eq (m : FrozenClipImageEmbedder) (x : Tensor4) :
    m.preprocess x = korniaNormalize (bufferValue m.buffers "mean")
      (bufferValue m.buffers "std")
      ((korniaResize "bicubic" true m.antialias 224 224 x).map
        (fun img => img.map (fun ch => ch.map (fun row =>
          row.map (fun v => (v + 1) / 2))))) := rfl

theorem clipImage_buffer_mean (aa : Bool) :
    bufferValue (FrozenClipImageEmbedder.init aa).buffers "mean" = clipMeanList :=
  rfl

theorem clipImage_buffer_std (aa : Bool) :
    bufferValue (FrozenClipImageEmbedder.init aa).buffers "std" = clipStdList :=
  rfl

/-- C7: FrozenClipImageEmbedder.preprocess resizes to 224 x 224 (passing
bicubic interpolation, align_corners true and the configured antialias flag to
the external resize), then applies v to (v + 1) / 2, then the per-channel
normalization with the fixed CLIP statistics; the two constant vectors are
registered as non-persistent buffers excluded from the buffer state dict. -/
theorem clipImageEmbedder_preprocess (aa : Bool) (x : Tensor4) (B H W : Nat)
    (hx : t4HasShape x B 3 H W = true) (hH : 0 < H) :
    t4HasShape ((FrozenClipImageEmbedder.init aa).preprocess x) B 3 224 224 = true
    ∧ (∀ b c, b < B → c < 3 →
        chanAt ((FrozenClipImageEmbedder.init aa).preprocess x) b c
          = (chanAt (korniaResize "bicubic" true aa 224 224 x) b c).map
              (fun row => row.map
                (fun v => ((v + 1) / 2 - clipMeanC c) / clipStdC c)))
    ∧ bufferValue (FrozenClipImageEmbedder.init aa).buffers "mean" = clipMeanList
    ∧ bufferValue (FrozenClipImageEmbedder.init aa).buffers "std" = clipStdList
    ∧ bufferStateDict (FrozenClipImageEmbedder.init aa).buffers = []
    ∧ (∀ b ∈ (FrozenClipImageEmbedder.init aa).buffers, b.persistent = false) := by
  have hr := korniaResize_shape "bicubic" true aa 224 224 x B 3 H W hx hH
  refine ⟨?_, ?_, clipImage_buffer_mean aa, clipImage_buffer_std aa, rfl, ?_⟩
  · rw [preprocess_eq, clipImage_buffer_mean, clipImage_buffer_std]
    exact korniaNormalize_shape clipMeanList clipStdList _ B 224 224 rfl rfl
      (mapVals4_shape _ _ B 3 224 224 hr)
  · intro b c hb hc
    obtain ⟨hrB, hrimgs⟩ := (t4HasShape_iff _ _ _ _ _).mp hr
    have hbr : b < (korniaResize "bicubic" true aa 224 224 x).length := by
      rw [hrB]; exact hb
    have hmem : (korniaResize "bicubic" true aa 224 224 x).getD b []
        ∈ korniaResize "bicubic" true aa 224 224 x := getD_mem _ b hbr []
    have h3 := (t3HasShape_iff _ _ _ _).mp (hrimgs _ hmem)
    obtain ⟨c0, c1, c2, hch⟩ := List.length_eq_three.mp h3.1
    rw [preprocess_eq, clipImage_buffer_mean, clipImage_buffer_std]
    simp only [FrozenClipImageEmbedder.init]
    unfold chanAt korniaNormalize
    rw [getD_map_lt _ _ b (by rw [List.length_map, hrB]; exact hb) [] []]
    rw [getD_map_lt _ _ b hbr [] []]
    rw [hch]
    simp only [List.map_cons, List.map_nil]
    interval_cases c <;>
      simp [clipMeanList, clipStdList, clipMeanC, clipStdC, List.map_map,
        Function.comp, List.getD]
  · intro b hb
    simp [FrozenClipImageEmbedder.init] at hb
    rcases hb with hb | hb <;> rw [hb]

/-- Witness for C7: the registered mean buffer and the per-channel pointwise
formula checked at a concrete (1, 3, 2, 2) input and channel zero. -/
theorem clipImageEmbedder_preprocess_witness :
    bufferValue (FrozenClipImageEmbedder.init false).buffers "mean" = clipMeanList
    ∧ chanAt ((FrozenClipImageEmbedder.init false).preprocess (zeros4 1 3 2 2)) 0 0
        = (chanAt (korniaResize "bicubic" true false 224 224 (zeros4 1 3 2 2)) 0 0).map
            (fun row => row.map
              (fun v => ((v + 1) / 2 - clipMeanC 0) / clipStdC 0)) :=
  ⟨(clipImageEmbedder_preprocess false (zeros4 1 3 2 2) 1 2 2 (by decide)
      (by decide)).2.2.1,
    (clipImageEmbedder_preprocess false (zeros4 1 3 2 2) 1 2 2 (by decide)
      (by decide)).2.1 0 0 (by decide) (by decide)⟩

end LDZNet
